import Mathlib

/-!
Verification of the organization-hierarchy session / authorization model of
`moflask/jwt.py`.

The Python module is shallowly embedded:
* organization paths are `String`s using `>` as separator; Python's
  `str.split(">")` is modelled by `pySplit` (character-level split on `'>'`);
* Python `dict`s are association lists (`List (String × _)`); dictionary
  access (`d[k]`, `k in d`) is `List.lookup`;
* Python `frozenset`s of role names are `Finset String`;
* the nondeterministic `uuid.uuid4()` is an explicit `fresh_uuid` argument;
* exceptions raised while decoding raw token data are an `Except` result;
* the route guard (`required`) is a function from the result of the external
  token verification to an explicit outcome value.
-/

/-- The separator character of organization path strings (Python `">"`). -/
def orgSep : Char := '>'

/-- Model of Python `str.split` with the one-character separator `">"`:
splits at every occurrence of the separator, keeping empty segments, and
returns `[[]]` for the empty string (as Python does). -/
def splitSegs : List Char → List (List Char)
  | [] => [[]]
  | c :: cs =>
    if c = orgSep then [] :: splitSegs cs
    else
      match splitSegs cs with
      | [] => [[c]]
      | h :: t => (c :: h) :: t

/-- Model of `org.split(">")` on strings, via `splitSegs` on the character list. -/
def pySplit (s : String) : List String :=
  (splitSegs s.data).map String.mk

/-- Join a list of segments with the separator: the inverse of `splitSegs`. -/
def joinSegs : List (List Char) → List Char
  | [] => []
  | [x] => x
  | x :: y :: t => x ++ orgSep :: joinSegs (y :: t)

/-- Python's `itertools.accumulate(parts, lambda a, b: f"{a}>{b}")`: the
running accumulation `a, a>b, a>b>c, ...` (empty for no parts). -/
def accumParts : List String → List String
  | [] => []
  | p :: ps => List.scanl (fun a b => a ++ ">" ++ b) p ps

/-- Model of `iterate_parents(org, include_self)` from `moflask/jwt.py`:
split the path into parts, drop the last part unless `include_self`, and
return the running accumulation of the parts. -/
def iterate_parents (org : String) (include_self : Bool) : List String :=
  let parts := pySplit org
  accumParts (if include_self then parts else parts.dropLast)

/-- Model of `ancestors(orgs)` from `moflask/jwt.py`: the set of all proper ancestors
of all the given organizations
(Python `frozenset(itertools.chain.from_iterable(...))`). -/
def ancestors (orgs : List String) : Finset String :=
  ((orgs.map (fun org => iterate_parents org false)).flatten).toFinset

/-- The `Session` object of `moflask/jwt.py`: identity (nullable), a mapping
from organization path to a frozen role set, and a session id. -/
structure Session where
  identity : Option String
  roles : List (String × Finset String)
  session_id : String
deriving DecidableEq

/-- Model of `Session.__init__`: copies `roles` into frozen sets (`{}` if `roles` is
`None` or empty, i.e. falsy), and takes `custom_uuid or str(uuid.uuid4())`
as session id (a `None` or empty — falsy — `custom_uuid` is replaced by the
freshly generated uuid, which is passed here as the explicit
`fresh_uuid` argument). -/
def Session.init (identity : Option String) (roles : Option (List (String × List String)))
    (custom_uuid : Option String) (fresh_uuid : String) : Session :=
  ⟨identity,
   match roles with
   | some rs => if rs.isEmpty then [] else rs.map (fun p => (p.1, p.2.toFinset))
   | none => [],
   match custom_uuid with
   | some u => if u = "" then fresh_uuid else u
   | none => fresh_uuid⟩

/-- Model of `Session.has_any_role_of(roles, org)`: Python
`any(not roles or self.roles[o] & roles for o in orgs if o in self.roles)`
where `orgs` is `iterate_parents(org, include_self=True)` when an `org` is
given and `self.roles.keys()` otherwise. -/
def Session.has_any_role_of (s : Session) (roles : List String) (org : Option String) : Bool :=
  let rolesSet := roles.toFinset
  let orgs := match org with
    | some o => iterate_parents o true
    | none => s.roles.map Prod.fst
  orgs.any (fun o =>
    match s.roles.lookup o with
    | some rs => decide (rolesSet = ∅) || decide ((rs ∩ rolesSet).Nonempty)
    | none => false)

/-- Model of `Session.organizations_for_roles(admitted_roles)`: the qualifying
organizations (own role set intersects the admitted roles, or all of them if
the admitted set is empty), minus those having a proper ancestor in that
same set. -/
def Session.organizations_for_roles (s : Session) (admitted_roles : List String) :
    Finset String :=
  let roles := admitted_roles.toFinset
  let orgs : Finset String :=
    ((s.roles.filter
        (fun p => decide (roles = ∅) || decide ((p.2 ∩ roles).Nonempty))).map Prod.fst).toFinset
  orgs.filter (fun o => ¬ ∃ p ∈ iterate_parents o false, p ∈ orgs)

/-- The raw `user_claims` sub-dictionary of a token: each field is `none`
when the key is absent; the inner `Option` is the (possibly null) value. -/
structure RawClaims where
  roles : Option (Option (List (String × List String)))
  session_id : Option (Option String)
deriving DecidableEq

/-- Raw JWT token data (a Python dict): each field is `none` when the key is
absent; the inner layer is the (possibly null) value. -/
structure RawToken where
  identity : Option (Option String)
  sub : Option (Option String)
  user_claims : Option RawClaims
deriving DecidableEq

/-- Errors that decoding raw token data can produce. `keyError` models the
Python `KeyError` raised by a dict access on a missing key.
`malformedTokenError` — Modelled from the spec: the spec posits a dedicated
`MalformedTokenError`; no such class exists anywhere in the code, which only
performs plain dict accesses. -/
inductive DecodeError where
  | keyError (key : String)
  | malformedTokenError
deriving DecidableEq

/-- Python dict access `d[key]`: the value, or a `KeyError`. -/
def getKey {α : Type} (v : Option α) (key : String) : Except DecodeError α :=
  match v with
  | some a => Except.ok a
  | none => Except.error (DecodeError.keyError key)

/-- Model of `Session.from_raw_token(token)`: `claims = token["user_claims"]` then
`cls(token["identity"], claims["roles"], claims["session_id"])`, with dict
accesses in Python evaluation order. -/
def Session.from_raw_token (token : RawToken) (fresh_uuid : String) :
    Except DecodeError Session := do
  let claims ← getKey token.user_claims "user_claims"
  let identity ← getKey token.identity "identity"
  let roles ← getKey claims.roles "roles"
  let sid ← getKey claims.session_id "session_id"
  pure (Session.init identity roles sid fresh_uuid)

/-- Model of `Session.to_token_data()`: serializes the session into the raw token
structure, duplicating `identity` into `sub` and turning each frozen role
set into a list (Python `list(roles)`; the enumeration order of a frozenset
is not semantically meaningful, so the sets are listed in sorted order
here). -/
def Session.to_token_data (s : Session) : RawToken :=
  ⟨some s.identity, some s.identity,
   some ⟨some (some (s.roles.map (fun p => (p.1, p.2.sort (· ≤ ·))))),
         some (some s.session_id)⟩⟩

/-- Model of `Session.create_anonymous_session()`: reads the (case-insensitive)
`x-ist-org` request header — passed here as its extracted value,
`none` when absent — and builds `cls(None, {org: []} if org else {})`. -/
def create_anonymous_session (org_header : Option String) (fresh_uuid : String) : Session :=
  let org := org_header
  Session.init none
    (some (match org with
      | some o => if o = "" then [] else [(o, [])]
      | none => []))
    none fresh_uuid

/-- Result of the external `flask_jwt_extended.verify_jwt_in_request` call:
a verified session decoded from a valid token, a falsy result (optional
authentication or exempt request method), or a raised authentication
error. -/
inductive VerifyResult where
  | verified (s : Session)
  | exempt
  | authError
deriving DecidableEq

/-- Model of `check_roles(session, admitted_roles, org)`: raises
`werkzeug.exceptions.Forbidden` when the session has none of the admitted
roles. -/
def check_roles (session : Session) (admitted_roles : List String) (org : Option String) :
    Except String Unit :=
  if session.has_any_role_of admitted_roles org then Except.ok ()
  else Except.error "The user has none of the admitted roles."

/-- Outcome of one request through the `required` route guard. -/
inductive Outcome where
  | authFailure
  | authzFailure (message : String)
  | handled (session : Session)
deriving DecidableEq

/-- The session established by the guard: the verified session, or the
anonymous session in the fallback branch. -/
def established_session (vr : VerifyResult) (anon : Session) : Session :=
  match vr with
  | VerifyResult.verified s => s
  | _ => anon

/-- The wrapper produced by the `required` decorator: a raised
authentication error propagates; otherwise the session is established and
pushed to the request context, then — a `Session` object is always truthy,
so `if session and admitted_roles is not None` reduces to the latter test —
`check_roles` runs when `admitted_roles` is not `None`, and the wrapped
handler runs only if no exception was raised. -/
def required_wrapper (admitted_roles : Option (List String)) (vr : VerifyResult)
    (anon : Session) : Outcome :=
  match vr with
  | VerifyResult.authError => Outcome.authFailure
  | _ =>
    let session := established_session vr anon
    match admitted_roles with
    | none => Outcome.handled session
    | some rs =>
      match check_roles session rs none with
      | Except.ok _ => Outcome.handled session
      | Except.error m => Outcome.authzFailure m

/-- HTTP status equivalent of each guard outcome: authentication failures
are flask_jwt_extended 401 responses, `werkzeug.exceptions.Forbidden` is
403, a handled request returns the handler's response (200 here). -/
def outcome_status (o : Outcome) : Nat :=
  match o with
  | Outcome.authFailure => 401
  | Outcome.authzFailure _ => 403
  | Outcome.handled _ => 200

/-- The effective role set of an organization: the union of the role sets
recorded for the organization itself and all of its proper ancestors
(absent organizations contribute the empty set). -/
def Session.effective_roles (s : Session) (org : String) : Finset String :=
  ((iterate_parents org true).map (fun o => (s.roles.lookup o).getD ∅)).foldr (· ∪ ·) ∅

/-- An organization qualifies for an admitted role set when it has an entry
whose role set intersects the admitted set, any entry counting if the
admitted set is empty. -/
def qualifies (s : Session) (admitted : Finset String) (o : String) : Prop :=
  ∃ rs, s.roles.lookup o = some rs ∧ (admitted = ∅ ∨ (rs ∩ admitted).Nonempty)

/-- Example session for the minimality scenario of the spec. -/
def minimalitySession : Session :=
  ⟨some "user-id", [("root", {"A"}), ("root>child", {"A"})], "sid-1"⟩

/-- Example raw token whose `session_id` claim is the empty string. -/
def emptySidToken : RawToken :=
  ⟨some (some "user-id"), some (some "user-id"),
   some ⟨some (some [("org", ["admin"])]), some (some "")⟩⟩

/-- Example session for the role-inheritance scenario of the spec. -/
def c1Session : Session :=
  ⟨some "user-id", [("root", {"R1"}), ("root>parent>org", {"R2"})], "sid-0"⟩

/-- Example verified session for the route-guard scenario of the spec. -/
def c8Session : Session := ⟨some "user-id", [("organization", {"app"})], "sid-8"⟩

/-- Example anonymous session for the route-guard scenario. -/
def c8Anon : Session := ⟨none, [], "sid-anon"⟩

/-- Joining path parts back together with the separator. -/
def joinStr : List String → String
  | [] => ""
  | p :: ps => List.foldl (fun a b => a ++ ">" ++ b) p ps

theorem splitSegs_ne_nil (l : List Char) : splitSegs l ≠ [] := by
  induction l with
  | nil => simp [splitSegs]
  | cons c cs ih =>
    unfold splitSegs
    by_cases h : c = orgSep
    · simp [h]
    · simp only [h, if_false]
      cases hs : splitSegs cs with
      | nil => simp
      | cons x t => simp

theorem joinSegs_splitSegs (l : List Char) : joinSegs (splitSegs l) = l := by
  induction l with
  | nil => simp [splitSegs, joinSegs]
  | cons c cs ih =>
    unfold splitSegs
    by_cases h : c = orgSep
    · simp only [h, if_true]
      cases hs : splitSegs cs with
      | nil => exact absurd hs (splitSegs_ne_nil cs)
      | cons x t =>
        rw [hs] at ih
        simp [joinSegs, ih, h]
    · simp only [h, if_false]
      cases hs : splitSegs cs with
      | nil => exact absurd hs (splitSegs_ne_nil cs)
      | cons x t =>
        rw [hs] at ih
        cases t with
        | nil => simp [joinSegs] at ih ⊢; simp [ih]
        | cons y t' => simp [joinSegs] at ih ⊢; simp [ih]

theorem strAppendSep (a b : List Char) :
    String.mk a ++ ">" ++ String.mk b = String.mk (a ++ orgSep :: b) := by
  show String.mk (a ++ ['>'] ++ b) = String.mk (a ++ orgSep :: b)
  simp [orgSep]

theorem scanl_concat {α β : Type} (f : β → α → β) (i : β) (l : List α) (a : α) :
    List.scanl f i (l ++ [a]) = List.scanl f i l ++ [List.foldl f i (l ++ [a])] := by
  induction l generalizing i with
  | nil => simp [List.scanl_nil, List.scanl_cons]
  | cons b t ih => simp [List.scanl_cons, ih]

theorem foldl_join (q : List Char) (qs : List (List Char)) :
    List.foldl (fun a b => a ++ ">" ++ b) (String.mk q) (qs.map String.mk) =
      String.mk (joinSegs (q :: qs)) := by
  induction qs generalizing q with
  | nil => simp [joinSegs]
  | cons b t ih =>
    simp only [List.map_cons, List.foldl_cons, strAppendSep]
    rw [ih (q ++ orgSep :: b)]
    congr 1
    cases t with
    | nil => simp [joinSegs]
    | cons y t' => simp [joinSegs]

theorem joinStr_pySplit (s : String) : joinStr (pySplit s) = s := by
  unfold pySplit
  cases hs : splitSegs s.data with
  | nil => exact absurd hs (splitSegs_ne_nil s.data)
  | cons q qs =>
    have hj : joinSegs (splitSegs s.data) = s.data := joinSegs_splitSegs s.data
    rw [hs] at hj
    simp only [List.map_cons, joinStr, foldl_join, hj]

theorem pySplit_ne_nil (s : String) : pySplit s ≠ [] := by
  unfold pySplit
  intro h
  exact splitSegs_ne_nil s.data (List.map_eq_nil_iff.mp h)

theorem accumParts_concat (p : String) (ps : List String) (x : String) :
    accumParts ((p :: ps) ++ [x]) = accumParts (p :: ps) ++ [joinStr ((p :: ps) ++ [x])] := by
  simp only [List.cons_append, accumParts, joinStr, scanl_concat]

theorem iterate_parents_decomp (s : String) :
    iterate_parents s true = iterate_parents s false ++ [s] := by
  unfold iterate_parents
  cases hs : pySplit s with
  | nil => exact absurd hs (pySplit_ne_nil s)
  | cons q qs =>
    have hj : joinStr (pySplit s) = s := joinStr_pySplit s
    rw [hs] at hj
    rcases List.eq_nil_or_concat qs with h | ⟨qs', a, h⟩
    · subst h
      simp only [if_true, if_false, List.dropLast_single, accumParts, List.scanl_nil]
      simpa [joinStr] using hj.symm ▸ rfl
    · rw [List.concat_eq_append] at h
      subst h
      have hdrop : (q :: (qs' ++ [a])).dropLast = q :: qs' := by
        rw [show q :: (qs' ++ [a]) = (q :: qs') ++ [a] from by simp]
        exact List.dropLast_concat
      show accumParts (q :: (qs' ++ [a])) = accumParts ((q :: (qs' ++ [a])).dropLast) ++ [s]
      rw [hdrop]
      rw [show q :: (qs' ++ [a]) = (q :: qs') ++ [a] from by simp]
      rw [accumParts_concat]
      congr 1
      rw [show (q :: qs') ++ [a] = q :: (qs' ++ [a]) from by simp]
      rw [hj]

theorem accumParts_length (l : List String) : (accumParts l).length = l.length := by
  cases l with
  | nil => rfl
  | cons p ps => simp [accumParts, List.length_scanl]

theorem iterate_parents_length_true (s : String) :
    (iterate_parents s true).length = (pySplit s).length := by
  unfold iterate_parents
  simp [accumParts_length]

theorem iterate_parents_length_false (s : String) :
    (iterate_parents s false).length = (pySplit s).length - 1 := by
  unfold iterate_parents
  simp [accumParts_length]

theorem scanl_head {α β : Type} (f : β → α → β) (i : β) (l : List α) :
    (List.scanl f i l).head? = some i := by
  cases l <;> rfl

theorem chain_scanl {R : String → String → Prop} {f : String → String → String}
    (hf : ∀ a b, R a (f a b)) (i : String) (l : List String) :
    List.Chain' R (List.scanl f i l) := by
  induction l generalizing i with
  | nil => exact List.chain'_singleton i
  | cons a t ih =>
    show List.Chain' R (i :: List.scanl f (f i a) t)
    refine List.chain'_cons'.mpr ⟨?_, ih (f i a)⟩
    intro y hy
    rw [scanl_head] at hy
    simp only [Option.mem_def, Option.some.injEq] at hy
    subst hy
    exact hf i a

theorem chain_accumParts {R : String → String → Prop}
    (hf : ∀ a b, R a (a ++ ">" ++ b)) (l : List String) :
    List.Chain' R (accumParts l) := by
  cases l with
  | nil => simp [accumParts]
  | cons p ps => exact chain_scanl hf p ps

theorem strict_pre_trans :
    Transitive (fun a b : String => a.data <+: b.data ∧ a.data.length < b.data.length) := by
  intro a b c hab hbc
  exact ⟨hab.1.trans hbc.1, hab.2.trans hbc.2⟩

theorem iterate_parents_ordered (s : String) :
    List.Pairwise (fun a b : String => a.data <+: b.data ∧ a.data.length < b.data.length)
      (iterate_parents s true) := by
  have hchain : List.Chain' (fun a b : String => a.data <+: b.data ∧ a.data.length < b.data.length)
      (iterate_parents s true) := by
    unfold iterate_parents
    apply chain_accumParts
    intro a b
    constructor
    · show a.data <+: (a.data ++ ['>'] ++ b.data)
      exact (List.prefix_append a.data _).trans (by rw [List.append_assoc])
    · show a.data.length < (a.data ++ ['>'] ++ b.data).length
      simp
  haveI : IsTrans String (fun a b : String => a.data <+: b.data ∧ a.data.length < b.data.length) :=
    ⟨fun a b c hab hbc => strict_pre_trans hab hbc⟩
  exact List.chain'_iff_pairwise.mp hchain

theorem lookup_isSome_iff {β : Type} (l : List (String × β)) (k : String) :
    (l.lookup k).isSome = true ↔ k ∈ l.map Prod.fst := by
  induction l with
  | nil => simp [List.lookup]
  | cons pr t ih =>
    obtain ⟨k', v⟩ := pr
    by_cases h : k = k'
    · subst h; simp [List.lookup]
    · have hbeq : (k == k') = false := beq_eq_false_iff_ne.mpr h
      simp [List.lookup, hbeq, ih, h]

theorem lookup_mem {β : Type} {l : List (String × β)} {k : String} {v : β}
    (h : l.lookup k = some v) : (k, v) ∈ l := by
  induction l with
  | nil => simp [List.lookup] at h
  | cons pr t ih =>
    obtain ⟨k', v'⟩ := pr
    by_cases he : k = k'
    · subst he
      simp only [List.lookup, beq_self_eq_true] at h
      have hv : v' = v := by simpa using h
      subst hv
      exact List.mem_cons_self _ _
    · have hbeq : (k == k') = false := beq_eq_false_iff_ne.mpr he
      simp only [List.lookup, hbeq] at h
      exact List.mem_cons_of_mem _ (ih h)

theorem mem_lookup_nodup {β : Type} {l : List (String × β)} {k : String} {v : β}
    (hm : (k, v) ∈ l) (hnd : (l.map Prod.fst).Nodup) : l.lookup k = some v := by
  induction l with
  | nil => simp at hm
  | cons pr t ih =>
    obtain ⟨k', v'⟩ := pr
    simp only [List.map_cons, List.nodup_cons] at hnd
    obtain ⟨hk', hnd'⟩ := hnd
    rcases List.mem_cons.mp hm with h | h
    · have h1 : k = k' ∧ v = v' := by simpa using h
      obtain ⟨rfl, rfl⟩ := h1
      simp [List.lookup]
    · have hkmem : k ∈ t.map Prod.fst := List.mem_map.mpr ⟨(k, v), h, rfl⟩
      have hne : k ≠ k' := fun he => hk' (he ▸ hkmem)
      have hbeq : (k == k') = false := beq_eq_false_iff_ne.mpr hne
      simp only [List.lookup, hbeq]
      exact ih h hnd'

theorem foldr_union_mem (l : List (Finset String)) (r : String) :
    r ∈ l.foldr (· ∪ ·) ∅ ↔ ∃ x ∈ l, r ∈ x := by
  induction l with
  | nil => simp
  | cons x t ih => simp [Finset.mem_union, ih]

theorem effective_roles_mem (s : Session) (org r : String) :
    r ∈ s.effective_roles org ↔
      ∃ o ∈ iterate_parents org true, ∃ rs, s.roles.lookup o = some rs ∧ r ∈ rs := by
  unfold Session.effective_roles
  rw [foldr_union_mem]
  simp only [List.mem_map]
  constructor
  · rintro ⟨x, ⟨o, ho, rfl⟩, hr⟩
    cases hl : s.roles.lookup o with
    | none => rw [hl] at hr; simp at hr
    | some rs =>
      rw [hl] at hr
      exact ⟨o, ho, rs, hl, hr⟩
  · rintro ⟨o, ho, rs, hl, hr⟩
    refine ⟨(s.roles.lookup o).getD ∅, ⟨o, ho, rfl⟩, ?_⟩
    rw [hl]
    exact hr

theorem has_any_role_some_iff (s : Session) (admitted : List String) (org : String)
    (hA : admitted.toFinset ≠ ∅) :
    s.has_any_role_of admitted (some org) = true ↔
      (s.effective_roles org ∩ admitted.toFinset).Nonempty := by
  unfold Session.has_any_role_of
  rw [List.any_eq_true]
  constructor
  · rintro ⟨o, ho, hpred⟩
    cases hl : s.roles.lookup o with
    | none => rw [hl] at hpred; simp at hpred
    | some rs =>
      rw [hl] at hpred
      simp only [Bool.or_eq_true, decide_eq_true_eq] at hpred
      rcases hpred with hemp | hne
      · exact absurd hemp hA
      · obtain ⟨r, hr⟩ := hne
        rw [Finset.mem_inter] at hr
        exact ⟨r, Finset.mem_inter.mpr
          ⟨(effective_roles_mem s org r).mpr ⟨o, ho, rs, hl, hr.1⟩, hr.2⟩⟩
  · rintro ⟨r, hr⟩
    rw [Finset.mem_inter] at hr
    obtain ⟨o, ho, rs, hl, hrs⟩ := (effective_roles_mem s org r).mp hr.1
    refine ⟨o, ho, ?_⟩
    rw [hl]
    simp only [Bool.or_eq_true, decide_eq_true_eq]
    exact Or.inr ⟨r, Finset.mem_inter.mpr ⟨hrs, hr.2⟩⟩

theorem has_any_role_empty_some_iff (s : Session) (org : String) :
    s.has_any_role_of [] (some org) = true ↔
      ∃ o ∈ iterate_parents org true, o ∈ s.roles.map Prod.fst := by
  unfold Session.has_any_role_of
  rw [List.any_eq_true]
  constructor
  · rintro ⟨o, ho, hpred⟩
    cases hl : s.roles.lookup o with
    | none => rw [hl] at hpred; simp at hpred
    | some rs =>
      refine ⟨o, ho, ?_⟩
      rw [← lookup_isSome_iff, hl]
      rfl
  · rintro ⟨o, ho, hk⟩
    refine ⟨o, ho, ?_⟩
    rw [← lookup_isSome_iff] at hk
    cases hl : s.roles.lookup o with
    | none => rw [hl] at hk; simp at hk
    | some rs => simp

theorem has_any_role_empty_none_iff (s : Session) :
    s.has_any_role_of [] none = true ↔ s.roles ≠ [] := by
  unfold Session.has_any_role_of
  rw [List.any_eq_true]
  constructor
  · rintro ⟨o, ho, hpred⟩
    intro hnil
    rw [hnil] at ho
    simp at ho
  · intro hne
    cases hr : s.roles with
    | nil => exact absurd hr hne
    | cons pr t =>
      obtain ⟨k, v⟩ := pr
      refine ⟨k, by simp, ?_⟩
      simp [List.lookup]

theorem mem_qualifying (s : Session) (A : Finset String) (o : String)
    (hnd : (s.roles.map Prod.fst).Nodup) :
    o ∈ ((s.roles.filter
        (fun p => decide (A = ∅) || decide ((p.2 ∩ A).Nonempty))).map Prod.fst).toFinset
      ↔ qualifies s A o := by
  rw [List.mem_toFinset, List.mem_map]
  constructor
  · rintro ⟨⟨k, rs⟩, hmem, rfl⟩
    rw [List.mem_filter] at hmem
    obtain ⟨hmem, hpred⟩ := hmem
    refine ⟨rs, mem_lookup_nodup hmem hnd, ?_⟩
    simpa using hpred
  · rintro ⟨rs, hl, hcond⟩
    refine ⟨(o, rs), ?_, rfl⟩
    rw [List.mem_filter]
    exact ⟨lookup_mem hl, by simpa using hcond⟩

theorem orgs_for_roles_mem (s : Session) (admitted : List String) (o : String)
    (hnd : (s.roles.map Prod.fst).Nodup) :
    o ∈ s.organizations_for_roles admitted ↔
      (qualifies s admitted.toFinset o ∧
        ∀ p ∈ iterate_parents o false, ¬ qualifies s admitted.toFinset p) := by
  unfold Session.organizations_for_roles
  rw [Finset.mem_filter, mem_qualifying s _ o hnd]
  constructor
  · rintro ⟨hq, hcl⟩
    refine ⟨hq, ?_⟩
    intro p hp hqp
    exact hcl ⟨p, hp, (mem_qualifying s _ p hnd).mpr hqp⟩
  · rintro ⟨hq, hcl⟩
    refine ⟨hq, ?_⟩
    rintro ⟨p, hp, hmem⟩
    exact hcl p hp ((mem_qualifying s _ p hnd).mp hmem)

theorem from_to_token (s : Session) (fresh : String) (h : s.session_id ≠ "") :
    Session.from_raw_token s.to_token_data fresh = Except.ok s := by
  obtain ⟨id, roles, sid⟩ := s
  simp only [ne_eq] at h
  show Except.ok (Session.init id
      (some (roles.map (fun p => (p.1, p.2.sort (· ≤ ·))))) (some sid) fresh) =
    Except.ok (⟨id, roles, sid⟩ : Session)
  unfold Session.init
  refine congrArg Except.ok ?_
  have hsid : (if sid = "" then fresh else sid) = sid := if_neg h
  have hroles : (if (roles.map (fun p => (p.1, p.2.sort (· ≤ ·)))).isEmpty then []
      else (roles.map (fun p => (p.1, p.2.sort (· ≤ ·)))).map (fun p => (p.1, p.2.toFinset)))
      = roles := by
    cases roles with
    | nil => simp
    | cons pr t =>
      rw [if_neg (by simp), List.map_map]
      simp [Function.comp_def, Finset.sort_toFinset]
  simp only []
  rw [hroles]  -- may need adjusting
  rw [hsid]

theorem except_bind_ok {e a b : Type} (x : a) (f : a → Except e b) :
    (Except.ok x >>= f) = f x := rfl

theorem except_bind_err {e a b : Type} (x : e) (f : a → Except e b) :
    ((Except.error x : Except e a) >>= f) = Except.error x := rfl

theorem except_map_ok {e a b : Type} (f : a → b) (x : a) :
    (f <$> (Except.ok x : Except e a)) = Except.ok (f x) := rfl

theorem except_map_err {e a b : Type} (f : a → b) (x : e) :
    (f <$> (Except.error x : Except e a)) = Except.error x := rfl

theorem from_raw_token_ok_iff (t : RawToken) (fresh : String) :
    ((∃ s, Session.from_raw_token t fresh = Except.ok s) ↔
      (t.user_claims.isSome ∧ t.identity.isSome ∧
        ∀ c, t.user_claims = some c → c.roles.isSome ∧ c.session_id.isSome)) ∧
    (∀ e, Session.from_raw_token t fresh = Except.error e →
      ∃ k, e = DecodeError.keyError k) := by
  obtain ⟨tid, tsub, tuc⟩ := t
  cases tuc with
  | none =>
    constructor
    · simp [Session.from_raw_token, getKey, except_bind_ok, except_bind_err, except_map_ok, except_map_err]
    · intro e he
      simp [Session.from_raw_token, getKey, except_bind_ok, except_bind_err, except_map_ok, except_map_err] at he
      exact ⟨"user_claims", he.symm⟩
  | some c =>
    obtain ⟨cr, csid⟩ := c
    cases tid with
    | none =>
      constructor
      · simp [Session.from_raw_token, getKey, except_bind_ok, except_bind_err, except_map_ok, except_map_err]
      · intro e he
        simp [Session.from_raw_token, getKey, except_bind_ok, except_bind_err, except_map_ok, except_map_err] at he
        exact ⟨"identity", he.symm⟩
    | some idv =>
      cases cr with
      | none =>
        constructor
        · simp [Session.from_raw_token, getKey, except_bind_ok, except_bind_err, except_map_ok, except_map_err]
        · intro e he
          simp [Session.from_raw_token, getKey, except_bind_ok, except_bind_err, except_map_ok, except_map_err] at he
          exact ⟨"roles", he.symm⟩
      | some rv =>
        cases csid with
        | none =>
          constructor
          · simp [Session.from_raw_token, getKey, except_bind_ok, except_bind_err, except_map_ok, except_map_err]
          · intro e he
            simp [Session.from_raw_token, getKey, except_bind_ok, except_bind_err, except_map_ok, except_map_err] at he
            exact ⟨"session_id", he.symm⟩
        | some sv =>
          constructor
          · simp [Session.from_raw_token, getKey, except_bind_ok, except_bind_err, except_map_ok, except_map_err]
          · intro e he
            simp [Session.from_raw_token, getKey, except_bind_ok, except_bind_err, except_map_ok, except_map_err] at he

theorem guard_spec (vr : VerifyResult) (anon : Session) (rs : List String)
    (hvr : vr ≠ VerifyResult.authError) :
    (established_session vr anon).has_any_role_of rs none = false →
      (required_wrapper (some rs) vr anon =
        Outcome.authzFailure "The user has none of the admitted roles." ∧
       (∀ t, required_wrapper (some rs) vr anon ≠ Outcome.handled t) ∧
       required_wrapper (some rs) vr anon ≠ Outcome.authFailure ∧
       outcome_status (required_wrapper (some rs) vr anon) = 403) := by
  intro hfalse
  cases vr with
  | authError => exact absurd rfl hvr
  | verified s =>
    simp only [required_wrapper, established_session, check_roles] at *
    simp [hfalse, outcome_status]
  | exempt =>
    simp only [required_wrapper, established_session, check_roles] at *
    simp [hfalse, outcome_status]

theorem guard_success (vr : VerifyResult) (anon : Session) (rs : List String)
    (hvr : vr ≠ VerifyResult.authError) :
    ((established_session vr anon).has_any_role_of rs none = true →
      required_wrapper (some rs) vr anon = Outcome.handled (established_session vr anon)) ∧
    required_wrapper none vr anon = Outcome.handled (established_session vr anon) := by
  cases vr with
  | authError => exact absurd rfl hvr
  | verified s =>
    constructor
    · intro htrue
      simp only [required_wrapper, established_session, check_roles] at *
      simp [htrue]
    · rfl
  | exempt =>
    constructor
    · intro htrue
      simp only [required_wrapper, established_session, check_roles] at *
      simp [htrue]
    · rfl

theorem anon_session_spec (header : Option String) (fresh : String) :
    (create_anonymous_session header fresh).identity = none ∧
    (∀ o, header = some o → o ≠ "" →
      (create_anonymous_session header fresh).roles = [(o, ∅)]) ∧
    ((header = none ∨ header = some "") →
      (create_anonymous_session header fresh).roles = []) := by
  refine ⟨rfl, ?_, ?_⟩
  · rintro o rfl ho
    simp [create_anonymous_session, Session.init, ho]
  · rintro (rfl | rfl)
    · rfl
    · rfl

theorem session_init_id (identity : Option String)
    (roles : Option (List (String × List String))) (cu : Option String) (fresh : String)
    (hf : fresh ≠ "") :
    (Session.init identity roles (some "") fresh).session_id = fresh ∧
    (Session.init identity roles none fresh).session_id = fresh ∧
    (Session.init identity roles cu fresh).session_id ≠ "" ∧
    (∀ s, Session.from_raw_token emptySidToken fresh = Except.ok s →
      s.session_id = fresh) := by
  refine ⟨by simp [Session.init], rfl, ?_, ?_⟩
  · cases cu with
    | none => exact hf
    | some u =>
      by_cases hu : u = ""
      · simp [Session.init, hu]; exact hf
      · simp [Session.init, hu]
  · intro s hs
    have hcomp : Session.from_raw_token emptySidToken fresh =
        Except.ok (Session.init (some "user-id") (some [("org", ["admin"])]) (some "") fresh) := rfl
    rw [hcomp] at hs
    cases hs
    simp [Session.init]

/-- C1: with a non-empty admitted role set and an explicit organization, and a
session whose roles mapping contains entries, `has_any_role_of` returns true
exactly when the union of the role sets of the organization and of all its
proper ancestors (its effective role set) intersects the admitted roles;
consequently a role granted at a proper ancestor applies to the descendant,
while the check never looks below the organization, so roles granted at a
descendant never apply to an ancestor. -/
theorem claim_C1 (s : Session) (admitted : List String) (org : String)
    (_hroles : s.roles ≠ []) (hA : admitted ≠ []) :
    (s.has_any_role_of admitted (some org) = true ↔
      (s.effective_roles org ∩ admitted.toFinset).Nonempty) ∧
    (∀ anc ∈ iterate_parents org false, ∀ rs, s.roles.lookup anc = some rs →
      ∀ r ∈ rs, r ∈ admitted → s.has_any_role_of admitted (some org) = true) := by
  have hA' : admitted.toFinset ≠ ∅ := by
    simpa [List.toFinset_eq_empty_iff] using hA
  refine ⟨has_any_role_some_iff s admitted org hA', ?_⟩
  intro anc hanc rs hl r hr hrA
  rw [has_any_role_some_iff s admitted org hA']
  refine ⟨r, Finset.mem_inter.mpr ⟨?_, List.mem_toFinset.mpr hrA⟩⟩
  rw [effective_roles_mem]
  refine ⟨anc, ?_, rs, hl, hr⟩
  rw [iterate_parents_decomp]
  exact List.mem_append_left _ hanc

theorem claim_C1_witness :
    c1Session.roles ≠ [] ∧
    c1Session.has_any_role_of ["R1"] (some "root>parent>org") = true :=
  ⟨by decide,
   (claim_C1 c1Session ["R1"] "root>parent>org" (by decide) (by decide)).1.mpr (by decide)⟩

/-- C2: `organizations_for_roles` contains exactly the organizations that
qualify on their own role set (all keys when the admitted set is empty) and
have no qualifying proper ancestor; hence no element of the result is a
proper ancestor of another element, and on roles
`{"root": ["A"], "root>child": ["A"]}` with admitted roles `["A"]` the
result is exactly `{"root"}`. -/
theorem claim_C2 (s : Session) (admitted : List String)
    (hnd : (s.roles.map Prod.fst).Nodup) :
    (∀ o, o ∈ s.organizations_for_roles admitted ↔
      (qualifies s admitted.toFinset o ∧
        ∀ p ∈ iterate_parents o false, ¬ qualifies s admitted.toFinset p)) ∧
    (∀ a ∈ s.organizations_for_roles admitted, ∀ b ∈ s.organizations_for_roles admitted,
      a ∉ iterate_parents b false) ∧
    minimalitySession.organizations_for_roles ["A"] = {"root"} := by
  refine ⟨fun o => orgs_for_roles_mem s admitted o hnd, ?_, by decide⟩
  intro a ha b hb hab
  obtain ⟨hqa, _⟩ := (orgs_for_roles_mem s admitted a hnd).mp ha
  obtain ⟨_, hclb⟩ := (orgs_for_roles_mem s admitted b hnd).mp hb
  exact hclb a hab hqa

theorem claim_C2_witness :
    minimalitySession.organizations_for_roles ["A"] = {"root"} :=
  (claim_C2 minimalitySession ["A"] (by decide)).2.2

/-- C3: decoding the claims produced by serializing a session yields that very
session back — identity, role mapping (role sets as unordered sets) and
session id included — and the serialized claims carry the same value in
their `identity` and `sub` fields. -/
theorem claim_C3 (s : Session) (fresh : String) (h : s.session_id ≠ "") :
    Session.from_raw_token s.to_token_data fresh = Except.ok s ∧
    (s.to_token_data).sub = (s.to_token_data).identity :=
  ⟨from_to_token s fresh h, rfl⟩

theorem claim_C3_witness :
    Session.from_raw_token
        (Session.mk (some "user-id") [("org1", {"admin"})] "sid-2").to_token_data "fresh" =
      Except.ok (Session.mk (some "user-id") [("org1", {"admin"})] "sid-2") :=
  (claim_C3 ⟨some "user-id", [("org1", {"admin"})], "sid-2"⟩ "fresh" (by decide)).1

/-- C4: with an empty admitted role set, `has_any_role_of` with an explicit
organization returns true iff the organization or one of its proper
ancestors appears as a key of the roles mapping, and with no organization it
returns true iff the roles mapping has at least one entry. -/
theorem claim_C4 (s : Session) (org : String) :
    (s.has_any_role_of [] (some org) = true ↔
      ∃ o ∈ iterate_parents org true, o ∈ s.roles.map Prod.fst) ∧
    (s.has_any_role_of [] none = true ↔ s.roles ≠ []) :=
  ⟨has_any_role_empty_some_iff s org, has_any_role_empty_none_iff s⟩

/-- C5: for a non-empty path with `n` separator-delimited segments,
`iterate_parents` without `include_self` yields `n - 1` paths and with
`include_self` yields `n` paths ending in the path itself; a single-segment
path yields the empty sequence without `include_self`; and the sequence is
ordered root-first, each element being a strict prefix of all later ones. -/
theorem claim_C5 (p : String) (_hp : p ≠ "") :
    ((iterate_parents p false).length = (pySplit p).length - 1) ∧
    ((iterate_parents p true).length = (pySplit p).length) ∧
    (iterate_parents p true = iterate_parents p false ++ [p]) ∧
    ((pySplit p).length = 1 → iterate_parents p false = []) ∧
    List.Pairwise (fun a b : String => a.data <+: b.data ∧ a.data.length < b.data.length)
      (iterate_parents p true) := by
  refine ⟨iterate_parents_length_false p, iterate_parents_length_true p,
    iterate_parents_decomp p, ?_, iterate_parents_ordered p⟩
  intro h1
  have hlen := iterate_parents_length_false p
  rw [h1] at hlen
  exact List.length_eq_zero.mp (by simpa using hlen)

theorem claim_C5_witness :
    ("root>parent>org" : String) ≠ "" ∧
    iterate_parents "root>parent>org" true =
      iterate_parents "root>parent>org" false ++ ["root>parent>org"] :=
  ⟨by decide, (claim_C5 "root>parent>org" (by decide)).2.2.1⟩

/-- C6: `ancestors` is the set union of `iterate_parents(p, include_self :=
false)` over the given paths, it only depends on the set of inputs (order
and duplicates are irrelevant), and on
`{"root>parent>org1", "root>parent>org2"}` it equals
`{"root", "root>parent"}`. -/
theorem claim_C6 (orgs : List String) :
    (∀ x, x ∈ ancestors orgs ↔ ∃ p ∈ orgs, x ∈ iterate_parents p false) ∧
    (∀ orgs2 : List String, orgs.toFinset = orgs2.toFinset →
      ancestors orgs = ancestors orgs2) ∧
    ancestors ["root>parent>org1", "root>parent>org2"] = {"root", "root>parent"} := by
  have hmem : ∀ (l : List String) (x : String),
      x ∈ ancestors l ↔ ∃ p ∈ l, x ∈ iterate_parents p false := by
    intro l x
    simp only [ancestors, List.mem_toFinset, List.mem_flatten, List.mem_map]
    constructor
    · rintro ⟨a, ⟨p, hp, rfl⟩, hx⟩
      exact ⟨p, hp, hx⟩
    · rintro ⟨p, hp, hx⟩
      exact ⟨iterate_parents p false, ⟨p, hp, rfl⟩, hx⟩
  refine ⟨hmem orgs, ?_, by decide⟩
  intro orgs2 heq
  apply Finset.ext
  intro x
  rw [hmem orgs x, hmem orgs2 x]
  constructor
  · rintro ⟨p, hp, hx⟩
    exact ⟨p, List.mem_toFinset.mp (heq ▸ List.mem_toFinset.mpr hp), hx⟩
  · rintro ⟨p, hp, hx⟩
    exact ⟨p, List.mem_toFinset.mp (heq ▸ List.mem_toFinset.mpr hp), hx⟩

theorem claim_C6_witness :
    ancestors ["root>parent>org1", "root>parent>org2"] =
      ancestors ["root>parent>org2", "root>parent>org1", "root>parent>org1"] :=
  (claim_C6 ["root>parent>org1", "root>parent>org2"]).2.1
    ["root>parent>org2", "root>parent>org1", "root>parent>org1"] (by decide)

/-- C7 counterexample: decoding the empty token fails with a `KeyError` for
`user_claims`, not with the `MalformedTokenError` posited by the spec — no
such error class exists in the code. -/
theorem claim_C7_counterexample :
    Session.from_raw_token ⟨none, none, none⟩ "fresh-uuid" =
      Except.error (DecodeError.keyError "user_claims") ∧
    DecodeError.keyError "user_claims" ≠ DecodeError.malformedTokenError :=
  ⟨rfl, by decide⟩

/-- C7 (amended): decoding raw token claims succeeds in reconstructing a
Session iff the required keys are all present (`user_claims` and `identity`
in the token, `roles` and `session_id` in `user_claims`), and every decoding
failure is a `KeyError` — never a `MalformedTokenError`, which the code does
not define. -/
theorem claim_C7 (t : RawToken) (fresh : String) :
    ((∃ s, Session.from_raw_token t fresh = Except.ok s) ↔
      (t.user_claims.isSome ∧ t.identity.isSome ∧
        ∀ c, t.user_claims = some c → c.roles.isSome ∧ c.session_id.isSome)) ∧
    (∀ e, Session.from_raw_token t fresh = Except.error e →
      ∃ k, e = DecodeError.keyError k) :=
  from_raw_token_ok_iff t fresh

theorem claim_C7_witness :
    ∃ k, DecodeError.keyError "user_claims" = DecodeError.keyError k :=
  (claim_C7 ⟨none, none, none⟩ "fresh-uuid").2 (DecodeError.keyError "user_claims") rfl

/-- C8: in the route guard, once a session is established (verified or
anonymous) and admitted roles are given, a false `has_any_role_of` leads to
a Forbidden (HTTP 403) authorization failure, distinct from an
authentication failure, and the handler never runs; a true result — or no
admitted-roles requirement — runs the handler with the established session
in the request context. -/
theorem claim_C8 (vr : VerifyResult) (anon : Session) (rs : List String)
    (hvr : vr ≠ VerifyResult.authError) :
    ((established_session vr anon).has_any_role_of rs none = false →
      required_wrapper (some rs) vr anon =
        Outcome.authzFailure "The user has none of the admitted roles." ∧
      (∀ t, required_wrapper (some rs) vr anon ≠ Outcome.handled t) ∧
      required_wrapper (some rs) vr anon ≠ Outcome.authFailure ∧
      outcome_status (required_wrapper (some rs) vr anon) = 403) ∧
    ((established_session vr anon).has_any_role_of rs none = true →
      required_wrapper (some rs) vr anon = Outcome.handled (established_session vr anon)) ∧
    required_wrapper none vr anon = Outcome.handled (established_session vr anon) :=
  ⟨guard_spec vr anon rs hvr, (guard_success vr anon rs hvr).1, (guard_success vr anon rs hvr).2⟩

theorem claim_C8_witness :
    required_wrapper (some ["app"]) (VerifyResult.verified c8Session) c8Anon =
      Outcome.handled c8Session ∧
    required_wrapper (some ["other"]) (VerifyResult.verified c8Session) c8Anon =
      Outcome.authzFailure "The user has none of the admitted roles." :=
  ⟨(claim_C8 (VerifyResult.verified c8Session) c8Anon ["app"] (by decide)).2.1 (by decide),
   ((claim_C8 (VerifyResult.verified c8Session) c8Anon ["other"] (by decide)).1 (by decide)).1⟩

/-- C9: the anonymous session factory always produces a session with no
identity, whose roles mapping is `{org: []}` when a non-empty organization
hint was supplied via the `x-ist-org` header and empty when the header is
absent or empty. -/
theorem claim_C9 (header : Option String) (fresh : String) :
    (create_anonymous_session header fresh).identity = none ∧
    (∀ o, header = some o → o ≠ "" →
      (create_anonymous_session header fresh).roles = [(o, ∅)]) ∧
    ((header = none ∨ header = some "") →
      (create_anonymous_session header fresh).roles = []) :=
  anon_session_spec header fresh

theorem claim_C9_witness :
    (create_anonymous_session (some "acme") "fresh-uuid").identity = none ∧
    (create_anonymous_session (some "acme") "fresh-uuid").roles = [("acme", ∅)] :=
  ⟨(claim_C9 (some "acme") "fresh-uuid").1,
   (claim_C9 (some "acme") "fresh-uuid").2.1 "acme" rfl (by decide)⟩

/-- C10: a falsy explicit session identifier — `None` or the empty string —
is discarded by the constructor in favour of the freshly generated uuid, so
a constructed session always carries a non-empty `session_id`, and an
empty-string `session_id` in token claims is not preserved through
decoding. -/
theorem claim_C10 (identity : Option String)
    (roles : Option (List (String × List String))) (cu : Option String) (fresh : String)
    (hf : fresh ≠ "") :
    (Session.init identity roles (some "") fresh).session_id = fresh ∧
    (Session.init identity roles none fresh).session_id = fresh ∧
    (Session.init identity roles cu fresh).session_id ≠ "" ∧
    (∀ s, Session.from_raw_token emptySidToken fresh = Except.ok s →
      s.session_id = fresh) :=
  session_init_id identity roles cu fresh hf

theorem claim_C10_witness :
    (Session.init (some "user-id") (some [("org", ["admin"])]) (some "") "fresh-uuid").session_id
      = "fresh-uuid" :=
  (claim_C10 (some "user-id") (some [("org", ["admin"])]) (some "") "fresh-uuid" (by decide)).1
